import Mathlib

/-!
Formal model of `lcgrandom.py` (linear congruential generator with fast
skipping and backward iteration).

Python arbitrary-precision integers are modelled as `Int`.  For a positive
right operand, Python's `%` agrees with `Int.emod` (result in `[0, mod)`),
and Python's floor division `//` agrees with `Int.fdiv`.  A raised Python
exception is modelled by `Except.error` (construction and
`reciprocal_mod`) or by `none` (in `skip`, where `pow(a, n, 0)` raises
`ValueError` when the third argument is zero).
-/

/-- The exceptions the Python code can raise. -/
inductive LcgError where
  /-- The AssertionError from one of the four `assert` statements in
  `__init__`; the specification calls this `InvalidParameterError`. -/
  | invalidParameter
  /-- The AssertionError from `assert mod > 0 and 0 <= x < mod` at the top
  of `reciprocal_mod`. -/
  | reciprocalAssert
  /-- The ValueError raised by `raise ValueError("Reciprocal does not exist")`
  at the end of `reciprocal_mod`; the specification calls this `NoInverseError`. -/
  | noInverse
deriving DecidableEq

/-- The fields of a constructed `LcgRandom` object, in the order they are
assigned in `__init__`: multiplier `a`, its modular reciprocal `ainv`,
increment `b`, modulus `m`, and current state `x`. -/
@[ext] structure LcgRandom where
  a : Int
  ainv : Int
  b : Int
  m : Int
  x : Int
deriving DecidableEq

/-- The `while y != 0` loop of `reciprocal_mod`, with the loop variables
`(x, y, a, b)` as arguments.  The asserted precondition `0 <= x < mod`
keeps `x` and `y` nonnegative throughout the loop, so they are carried as
`Nat`; the Bezout coefficients `a` and `b` do go negative and are `Int`.
One iteration performs `a, b = b, a - x // y * b` and `x, y = y, x % y`. -/
def recipLoop (x y : Nat) (a b : Int) : Nat × Int :=
  if hy : y = 0 then (x, a)
  else recipLoop y (x % y) b (a - ((x / y : Nat) : Int) * b)
termination_by y
decreasing_by exact Nat.mod_lt x (Nat.pos_of_ne_zero hy)

/-- Model of `LcgRandom.reciprocal_mod(x, mod)`: asserts `mod > 0 and 0 <= x < mod`,
runs the extended-Euclidean loop starting from `y = x`, `x = mod`, `a = 0`,
`b = 1`, and returns `a % mod` when the final `x` equals 1, raising
`ValueError` otherwise.  `(recipLoop ...).1` is the final `x` of the loop
and `(recipLoop ...).2` the final `a`. -/
def reciprocal_mod (x mod : Int) : Except LcgError Int :=
  if 0 < mod ∧ 0 ≤ x ∧ x < mod then
    if (recipLoop mod.toNat x.toNat 0 1).1 = 1 then
      .ok ((recipLoop mod.toNat x.toNat 0 1).2.emod mod)
    else .error .noInverse
  else .error .reciprocalAssert

namespace LcgRandom

/-- Model of `LcgRandom.__init__(a, b, m, seed)`: the four `assert` statements
(`a > 0`, `b >= 0`, `m > 0`, `0 <= seed < m`), then
`ainv = reciprocal_mod(a, m)` (whose exceptions propagate), then the field
assignments. -/
def init (a b m seed : Int) : Except LcgError LcgRandom :=
  if 0 < a ∧ 0 ≤ b ∧ 0 < m ∧ 0 ≤ seed ∧ seed < m then
    (reciprocal_mod a m).map fun ainv => ⟨a, ainv, b, m, seed⟩
  else .error .invalidParameter

/-- Model of `get_state`: returns the raw state `x`. -/
def get_state (e : LcgRandom) : Int := e.x

/-- Model of `next`: `self.x = (self.x * self.a + self.b) % self.m`. -/
def next (e : LcgRandom) : LcgRandom :=
  { e with x := (e.x * e.a + e.b).emod e.m }

/-- Model of `previous`: `self.x = (self.x - self.b) * self.ainv % self.m`. -/
def previous (e : LcgRandom) : LcgRandom :=
  { e with x := ((e.x - e.b) * e.ainv).emod e.m }

/-- Model of `skip(n)`: chooses `(a, b) = (self.a, self.b)` when `n >= 0` and
`(self.ainv, -self.ainv * self.b)` otherwise (with `n` replaced by `-n`),
then evaluates
`y = (pow(a, n, (a-1)*m) - 1) // (a-1) * b`, `z = pow(a, n, m) * x`, and
stores `(y + z) % m`.  When `(a-1)*m = 0` Python's `pow` raises
`ValueError` (third argument zero), modelled by `none`; on every engine
reachable by construction the moduli passed to `pow` and `%` are positive,
where `Int.emod` and `Int.fdiv` agree with Python's `%` and `//`. -/
def skip (e : LcgRandom) (n : Int) : Option LcgRandom :=
  let a := if 0 ≤ n then e.a else e.ainv
  let b := if 0 ≤ n then e.b else -e.ainv * e.b
  let N : Nat := n.natAbs
  let a1 := a - 1
  let ma := a1 * e.m
  if ma = 0 then none
  else
    let y := ((a ^ N).emod ma - 1).fdiv a1 * b
    let z := (a ^ N).emod e.m * e.x
    some { e with x := (y + z).emod e.m }

/-- Model of `randbit`: calls `next()` and returns `self.x >= (self.m >> 1)`.
For an integer, Python's `>> 1` is floor division by 2, i.e. `Int.fdiv`. -/
def randbit (e : LcgRandom) : Bool × LcgRandom :=
  let e1 := next e
  (decide (e1.m.fdiv 2 ≤ e1.x), e1)

/-- The `for i in range(k)` loop of `getrandbits`, iterating
`result = (result << 1) | self.randbit()` a fixed number of times.
`result` starts at 0 and stays nonnegative, so on every iteration
`(result << 1) | bit` equals `2 * result + bit` with `bit ∈ {0, 1}`. -/
def getrandbitsGo : Nat → Int × LcgRandom → Int × LcgRandom
  | 0, s => s
  | k + 1, (result, e) =>
      let p := randbit e
      getrandbitsGo k (2 * result + (if p.1 then 1 else 0), p.2)

/-- Model of `getrandbits(k)`: `result = 0`, then the `range(k)` loop.  Python's
`range(k)` is empty whenever `k <= 0`, so the loop runs `k.toNat` times;
no check of `k` is performed anywhere in the method. -/
def getrandbits (e : LcgRandom) (k : Int) : Int × LcgRandom :=
  getrandbitsGo k.toNat (0, e)

/-- Sequential stepping by `n`:
`next` iterated `n` times when `n ≥ 0`, else `previous` iterated `|n|`
times.  This is the sequential-stepping semantics that `skip` is claimed
to match. -/
def stepI (e : LcgRandom) (n : Int) : LcgRandom :=
  if 0 ≤ n then next^[n.toNat] e else previous^[n.natAbs] e

end LcgRandom

/-! Properties of the extended-Euclidean loop. -/

/-- The first component returned by `recipLoop` is `gcd` of its starting
`y` and `x`. -/
theorem recipLoop_fst (y : Nat) :
    ∀ (x : Nat) (a b : Int), (recipLoop x y a b).1 = Nat.gcd y x := by
  induction y using Nat.strong_induction_on with
  | _ y ih =>
    intro x a b
    rw [recipLoop]
    by_cases hy : y = 0
    · simp [hy]
    · rw [dif_neg hy]
      rw [ih (x % y) (Nat.mod_lt x (Nat.pos_of_ne_zero hy))]
      exact (Nat.gcd_rec y x).symm

/-- Loop invariant of `recipLoop`: if `a` and `b` are Bezout coefficients
for `x` and `y` (modulo `M`, with respect to a fixed base value `x0`),
then the returned coefficient is one for the returned gcd. -/
theorem recipLoop_snd (M x0 : Int) (y : Nat) :
    ∀ (x : Nat) (a b : Int), a * x0 ≡ (x : Int) [ZMOD M] → b * x0 ≡ (y : Int) [ZMOD M] →
      (recipLoop x y a b).2 * x0 ≡ ((recipLoop x y a b).1 : Int) [ZMOD M] := by
  induction y using Nat.strong_induction_on with
  | _ y ih =>
    intro x a b ha hb
    rw [recipLoop]
    by_cases hy : y = 0
    · rw [dif_pos hy]
      subst hy
      exact ha
    · rw [dif_neg hy]
      refine ih (x % y) (Nat.mod_lt x (Nat.pos_of_ne_zero hy)) y b _ hb ?_
      have hq : ((x % y : Nat) : Int) = (x : Int) - ((x / y : Nat) : Int) * (y : Int) := by
        have h : ((y * (x / y) + x % y : Nat) : Int) = (x : Int) :=
          congrArg (fun t : Nat => (t : Int)) (Nat.div_add_mod x y)
        rw [Nat.cast_add, Nat.cast_mul] at h
        linarith
      calc (a - ((x / y : Nat) : Int) * b) * x0
          = a * x0 - ((x / y : Nat) : Int) * (b * x0) := by ring
        _ ≡ (x : Int) - ((x / y : Nat) : Int) * (y : Int) [ZMOD M] :=
            Int.ModEq.sub ha (hb.mul_left _)
        _ = ((x % y : Nat) : Int) := hq.symm

/-- The loop as started by `reciprocal_mod` computes `gcd x mod`. -/
theorem recipLoop_init_fst (x mod : Int) :
    ((recipLoop mod.toNat x.toNat 0 1).1 : Nat) = Nat.gcd x.toNat mod.toNat :=
  recipLoop_fst x.toNat mod.toNat 0 1

/-- The coefficient computed by the loop as started by `reciprocal_mod`
multiplies `x` to the returned gcd, modulo `mod`. -/
theorem recipLoop_init_snd (x mod : Int) (hm : 0 < mod) (hx : 0 ≤ x) :
    (recipLoop mod.toNat x.toNat 0 1).2 * x
      ≡ ((recipLoop mod.toNat x.toNat 0 1).1 : Int) [ZMOD mod] := by
  refine recipLoop_snd mod x x.toNat mod.toNat 0 1 ?_ ?_
  · rw [zero_mul, Int.toNat_of_nonneg hm.le]
    exact Int.modEq_iff_dvd.mpr ⟨1, by ring⟩
  · rw [one_mul, Int.toNat_of_nonneg hx]

/-- Everything a successful `reciprocal_mod` guarantees: its asserted
precondition held, and the returned value is a modular reciprocal of `x`
lying in `[0, mod)`. -/
theorem reciprocal_mod_ok_spec (x mod r : Int) (h : reciprocal_mod x mod = .ok r) :
    0 < mod ∧ 0 ≤ x ∧ x < mod ∧ 0 ≤ r ∧ r < mod ∧ x * r ≡ 1 [ZMOD mod] := by
  unfold reciprocal_mod at h
  split at h
  case isFalse => exact absurd h (by simp)
  case isTrue hg =>
    obtain ⟨hm, hx, hxm⟩ := hg
    split at h
    case isFalse => exact absurd h (by simp)
    case isTrue h1 =>
      have hr : r = (recipLoop mod.toNat x.toNat 0 1).2.emod mod := by
        simpa using h.symm
      have hbez := recipLoop_init_snd x mod hm hx
      rw [h1] at hbez
      have hcong : x * r ≡ 1 [ZMOD mod] := by
        have hrc : r ≡ (recipLoop mod.toNat x.toNat 0 1).2 [ZMOD mod] := by
          rw [hr]; exact Int.emod_emod_of_dvd _ dvd_rfl
        calc x * r ≡ x * (recipLoop mod.toNat x.toNat 0 1).2 [ZMOD mod] := hrc.mul_left x
          _ = (recipLoop mod.toNat x.toNat 0 1).2 * x := by ring
          _ ≡ ((1 : Nat) : Int) [ZMOD mod] := hbez
          _ = 1 := by norm_num
      refine ⟨hm, hx, hxm, ?_, ?_, hcong⟩
      · rw [hr]; exact Int.emod_nonneg _ (ne_of_gt hm)
      · rw [hr]; exact Int.emod_lt_of_pos _ hm

/-! The closed form for iterating an affine map modulo `m`. -/

/-- Iterating `t ↦ (t * A + B) % m` is congruent to the geometric-series
closed form `A ^ N * x + B * (1 + A + ... + A ^ (N - 1))`. -/
theorem affIter_modEq (A B m x : Int) (N : Nat) :
    (fun t => (t * A + B).emod m)^[N] x
      ≡ A ^ N * x + B * (∑ i ∈ Finset.range N, A ^ i) [ZMOD m] := by
  induction N with
  | zero => simp
  | succ N ih =>
    rw [Function.iterate_succ_apply']
    calc ((fun t => (t * A + B).emod m)^[N] x * A + B).emod m
        ≡ (fun t => (t * A + B).emod m)^[N] x * A + B [ZMOD m] :=
          Int.emod_emod_of_dvd _ dvd_rfl
      _ ≡ (A ^ N * x + B * (∑ i ∈ Finset.range N, A ^ i)) * A + B [ZMOD m] :=
          Int.ModEq.add (ih.mul_right A) (Int.ModEq.refl B)
      _ = A ^ (N + 1) * x + B * (∑ i ∈ Finset.range (N + 1), A ^ i) := by
          rw [geom_sum_succ]
          ring

/-- Iterating `t ↦ (t * A + B) % m` from a value in `[0, m)` stays in
`[0, m)`. -/
theorem affIter_range (A B m x : Int) (hm : 0 < m) (hx : 0 ≤ x) (hxm : x < m) (N : Nat) :
    0 ≤ (fun t => (t * A + B).emod m)^[N] x ∧ (fun t => (t * A + B).emod m)^[N] x < m := by
  induction N with
  | zero => exact ⟨hx, hxm⟩
  | succ N ih =>
    rw [Function.iterate_succ_apply']
    exact ⟨Int.emod_nonneg _ (ne_of_gt hm), Int.emod_lt_of_pos _ hm⟩

/-- Correctness of the arithmetic performed by one branch of `skip`: for
`A ≥ 2`, the value `(pow(A, N, (A-1)*m) - 1) // (A-1) * B + pow(A, N, m) * x`,
reduced mod `m`, equals `N` iterations of `t ↦ (t * A + B) % m` on `x`.
The integer division is exact because `A ^ N ≡ 1 (mod A - 1)` survives the
reduction modulo `(A-1)*m`. -/
theorem skip_formula (A B m x : Int) (N : Nat) (hA : 2 ≤ A) (hm : 0 < m)
    (hx : 0 ≤ x) (hxm : x < m) :
    (((A ^ N).emod ((A - 1) * m) - 1).fdiv (A - 1) * B + (A ^ N).emod m * x).emod m
      = (fun t => (t * A + B).emod m)^[N] x := by
  have hA1 : (0 : Int) < A - 1 := by linarith
  have hgeom : (A - 1) * (∑ i ∈ Finset.range N, A ^ i) = A ^ N - 1 := by
    rw [mul_comm]; exact geom_sum_mul A N
  have hr : (A ^ N).emod ((A - 1) * m)
      = A ^ N - (A - 1) * m * ((A ^ N) / ((A - 1) * m)) := Int.emod_def _ _
  have hq : (A ^ N).emod ((A - 1) * m) - 1
      = (A - 1) * ((∑ i ∈ Finset.range N, A ^ i) - m * ((A ^ N) / ((A - 1) * m))) := by
    rw [hr]
    linear_combination -hgeom
  have hfdiv : ((A ^ N).emod ((A - 1) * m) - 1).fdiv (A - 1)
      = (∑ i ∈ Finset.range N, A ^ i) - m * ((A ^ N) / ((A - 1) * m)) := by
    rw [hq]
    exact Int.mul_fdiv_cancel_left _ (ne_of_gt hA1)
  have h1 : ((A ^ N).emod ((A - 1) * m) - 1).fdiv (A - 1) * B + (A ^ N).emod m * x
      ≡ A ^ N * x + B * (∑ i ∈ Finset.range N, A ^ i) [ZMOD m] := by
    rw [hfdiv]
    have c1 : ((∑ i ∈ Finset.range N, A ^ i) - m * ((A ^ N) / ((A - 1) * m))) * B
        ≡ (∑ i ∈ Finset.range N, A ^ i) * B [ZMOD m] :=
      Int.modEq_iff_dvd.mpr ⟨(A ^ N) / ((A - 1) * m) * B, by ring⟩
    have c2 : (A ^ N).emod m * x ≡ A ^ N * x [ZMOD m] :=
      Int.ModEq.mul_right x (Int.emod_emod_of_dvd _ dvd_rfl)
    calc ((∑ i ∈ Finset.range N, A ^ i) - m * ((A ^ N) / ((A - 1) * m))) * B
          + (A ^ N).emod m * x
        ≡ (∑ i ∈ Finset.range N, A ^ i) * B + A ^ N * x [ZMOD m] := c1.add c2
      _ = A ^ N * x + B * (∑ i ∈ Finset.range N, A ^ i) := by ring
  have h2 := affIter_modEq A B m x N
  have hrange := affIter_range A B m x hm hx hxm N
  have hmodeq : (((A ^ N).emod ((A - 1) * m) - 1).fdiv (A - 1) * B + (A ^ N).emod m * x)
      ≡ (fun t => (t * A + B).emod m)^[N] x [ZMOD m] := h1.trans h2.symm
  calc (((A ^ N).emod ((A - 1) * m) - 1).fdiv (A - 1) * B + (A ^ N).emod m * x).emod m
      = ((fun t => (t * A + B).emod m)^[N] x).emod m := hmodeq
    _ = (fun t => (t * A + B).emod m)^[N] x := Int.emod_eq_of_lt hrange.1 hrange.2

/-! Engine-level lemmas. -/

namespace LcgRandom

/-- Iterating `next` only changes the state field, by iterating the affine
map `t ↦ (t * a + b) % m`. -/
theorem next_iterate (e : LcgRandom) (N : Nat) :
    next^[N] e = ⟨e.a, e.ainv, e.b, e.m, (fun t => (t * e.a + e.b).emod e.m)^[N] e.x⟩ := by
  induction N with
  | zero => rfl
  | succ N ih =>
    rw [Function.iterate_succ_apply', ih, Function.iterate_succ_apply']
    simp only [next, LcgRandom.mk.injEq, true_and]

/-- Iterating `previous` only changes the state field, by iterating the
affine map `t ↦ (t * ainv + (-ainv * b)) % m` (the same map `skip` uses
for negative `n`). -/
theorem previous_iterate (e : LcgRandom) (N : Nat) :
    previous^[N] e
      = ⟨e.a, e.ainv, e.b, e.m,
         (fun t => (t * e.ainv + -e.ainv * e.b).emod e.m)^[N] e.x⟩ := by
  induction N with
  | zero => rfl
  | succ N ih =>
    rw [Function.iterate_succ_apply', ih, Function.iterate_succ_apply']
    simp only [previous, LcgRandom.mk.injEq, true_and]
    congr 1
    ring

/-- `skip` agrees with sequential stepping on every engine whose fields
satisfy the construction invariants, provided the multiplier (and hence
its reciprocal) is at least 2. -/
theorem skip_eq_stepI (e : LcgRandom) (hm : 0 < e.m) (ha2 : 2 ≤ e.a) (hai2 : 2 ≤ e.ainv)
    (hx : 0 ≤ e.x) (hxm : e.x < e.m) (n : Int) :
    skip e n = some (stepI e n) := by
  by_cases hn : 0 ≤ n
  · have hma : (e.a - 1) * e.m ≠ 0 := ne_of_gt (mul_pos (by linarith) hm)
    have hN : n.natAbs = n.toNat := by omega
    simp only [skip, stepI, if_pos hn, hN, if_neg hma]
    rw [next_iterate]
    simp only [Option.some.injEq, LcgRandom.mk.injEq, true_and]
    exact skip_formula e.a e.b e.m e.x n.toNat ha2 hm hx hxm
  · have hma : (e.ainv - 1) * e.m ≠ 0 := ne_of_gt (mul_pos (by linarith) hm)
    simp only [skip, stepI, if_neg hn, hma, if_false]
    rw [previous_iterate]
    simp only [Option.some.injEq, LcgRandom.mk.injEq, true_and]
    exact skip_formula e.ainv (-e.ainv * e.b) e.m e.x n.natAbs hai2 hm hx hxm

end LcgRandom

/-- Everything a successful construction guarantees about the resulting
engine: the assert conditions, the extra precondition `a < m` asserted
inside `reciprocal_mod`, and the reciprocal property of `ainv`. -/
theorem init_ok_spec (a b m seed : Int) (e : LcgRandom)
    (h : LcgRandom.init a b m seed = .ok e) :
    e.a = a ∧ e.b = b ∧ e.m = m ∧ e.x = seed ∧
    0 < e.a ∧ 0 ≤ e.b ∧ 0 < e.m ∧ 0 ≤ e.x ∧ e.x < e.m ∧ e.a < e.m ∧
    0 ≤ e.ainv ∧ e.ainv < e.m ∧ e.a * e.ainv ≡ 1 [ZMOD e.m] := by
  unfold LcgRandom.init at h
  split at h
  case isFalse => exact absurd h (by simp)
  case isTrue hg =>
    obtain ⟨h1, h2, h3, h4, h5⟩ := hg
    cases hrec : reciprocal_mod a m with
    | error err =>
      rw [hrec] at h
      exact absurd h (by simp [Except.map])
    | ok r =>
      rw [hrec] at h
      simp only [Except.map, Except.ok.injEq] at h
      obtain ⟨hmr, hxr, hxmr, hr0, hrm, hrinv⟩ := reciprocal_mod_ok_spec a m r hrec
      subst h
      exact ⟨rfl, rfl, rfl, rfl, h1, h2, h3, h4, h5, hxmr, hr0, hrm, hrinv⟩

/-- A modular reciprocal of a multiplier `a` with `2 ≤ a < m` is itself at
least 2: it cannot be 0 (else `m ∣ 1`) nor 1 (else `m ∣ a - 1`). -/
theorem ainv_ge_two (a ainv m : Int) (ha2 : 2 ≤ a) (ham : a < m) (hai0 : 0 ≤ ainv)
    (hinv : a * ainv ≡ 1 [ZMOD m]) : 2 ≤ ainv := by
  by_contra hlt
  push_neg at hlt
  have hcase : ainv = 0 ∨ ainv = 1 := by omega
  rcases hcase with rfl | rfl
  · have hdvd : m ∣ 1 := by
      have hd := Int.modEq_iff_dvd.mp hinv
      simpa using hd
    have := Int.le_of_dvd one_pos hdvd
    omega
  · have hdvd : m ∣ 1 - a := Int.modEq_iff_dvd.mp (by simpa using hinv)
    have hdvd2 : m ∣ a - 1 := by
      have hn := dvd_neg.mpr hdvd
      rwa [neg_sub] at hn
    have := Int.le_of_dvd (by omega) hdvd2
    omega

/-- When `skip` succeeds it only changes the state field, and the new
state is some integer reduced `% m`. -/
theorem skip_some_spec (e : LcgRandom) (n : Int) (e2 : LcgRandom)
    (h : LcgRandom.skip e n = some e2) :
    e2.a = e.a ∧ e2.ainv = e.ainv ∧ e2.b = e.b ∧ e2.m = e.m ∧
    ∃ w : Int, e2.x = w.emod e.m := by
  simp only [LcgRandom.skip] at h
  split at h <;> split at h
  all_goals first
    | · rw [Option.some.injEq] at h
        subst h
        exact ⟨rfl, rfl, rfl, rfl, _, rfl⟩
    | exact absurd h (by simp)

/-! Claim theorems. -/

/-- Claim C1 (amended: the multiplier of the constructed engine must differ
from 1).  For every validly constructed engine whose multiplier `a` is not
1 and every integer `n` (positive, negative, or zero), `skip n` succeeds
and produces exactly the engine obtained by `n` sequential `next` calls
when `n ≥ 0`, or `|n|` sequential `previous` calls when `n < 0`, starting
from the same state.  (For `a = 1` the code instead raises, see the
counterexample theorem.) -/
theorem skip_matches_sequential_stepping (a b m seed : Int) (e : LcgRandom)
    (h : LcgRandom.init a b m seed = .ok e) (hA : e.a ≠ 1) (n : Int) :
    LcgRandom.skip e n = some (LcgRandom.stepI e n) := by
  obtain ⟨-, -, -, -, hea, heb, hem, hex, hexm, heam, hai0, haim, hinv⟩ :=
    init_ok_spec a b m seed e h
  have ha2 : 2 ≤ e.a := by omega
  have hai2 : 2 ≤ e.ainv := ainv_ge_two e.a e.ainv e.m ha2 heam hai0 hinv
  exact LcgRandom.skip_eq_stepI e hem ha2 hai2 hex hexm n

/-- Witness for C1: a concrete valid engine (`a = 3`, `b = 1`, `m = 5`,
`seed = 2`, so `ainv = 2`), skipped forward by 4 and backward by 3. -/
theorem skip_matches_sequential_stepping_witness :
    LcgRandom.init 3 1 5 2 = .ok ⟨3, 2, 1, 5, 2⟩ ∧
    (⟨3, 2, 1, 5, 2⟩ : LcgRandom).a ≠ 1 ∧
    LcgRandom.skip ⟨3, 2, 1, 5, 2⟩ 4 = some (LcgRandom.stepI ⟨3, 2, 1, 5, 2⟩ 4) ∧
    LcgRandom.skip ⟨3, 2, 1, 5, 2⟩ (-3) = some (LcgRandom.stepI ⟨3, 2, 1, 5, 2⟩ (-3)) := by
  have hinit : LcgRandom.init 3 1 5 2 = .ok ⟨3, 2, 1, 5, 2⟩ := by
    simp [LcgRandom.init, reciprocal_mod, recipLoop]
    rfl
  exact ⟨hinit, by decide,
    skip_matches_sequential_stepping 3 1 5 2 _ hinit (by decide) 4,
    skip_matches_sequential_stepping 3 1 5 2 _ hinit (by decide) (-3)⟩

/-- Counterexample to C1 as stated: `a = 1, b = 1, m = 2, seed = 0` is a
validly constructed engine (`gcd(1, 2) = 1`), yet `skip 1` raises
(`pow(1, 1, 0)` gets a zero modulus, and the division by `a - 1 = 0` would
fail too) instead of producing the state a single `next` call reaches. -/
theorem skip_multiplier_one_counterexample :
    LcgRandom.init 1 1 2 0 = .ok ⟨1, 1, 1, 2, 0⟩ ∧
    LcgRandom.skip ⟨1, 1, 1, 2, 0⟩ 1 = none ∧
    LcgRandom.skip ⟨1, 1, 1, 2, 0⟩ 1 ≠ some (LcgRandom.stepI ⟨1, 1, 1, 2, 0⟩ 1) := by
  refine ⟨?_, by decide, by decide⟩
  simp [LcgRandom.init, reciprocal_mod, recipLoop]
  rfl

/-- Claim C2: with `a = 1, b = 7, m = 100, seed = 3` the specification
demands `skip(10)` reach state 73, but the code raises instead
(`pow(1, 10, 0)` has a zero modulus; the division by `a - 1 = 0` would
also fail): the `A = 1` branch the spec requires is absent.  Sequential
stepping does reach 73. -/
theorem skip_multiplier_one_raises_instead_of_73 :
    LcgRandom.init 1 7 100 3 = .ok ⟨1, 1, 7, 100, 3⟩ ∧
    LcgRandom.skip ⟨1, 1, 7, 100, 3⟩ 10 = none ∧
    (LcgRandom.stepI ⟨1, 1, 7, 100, 3⟩ 10).x = 73 := by
  refine ⟨?_, by decide, by decide⟩
  simp [LcgRandom.init, reciprocal_mod, recipLoop]
  rfl

/-- Claim C3 (amended): calling `getrandbits(k)` with `k < 0` does not raise;
`range(k)` is empty for negative `k`, so the loop body never runs and the
call silently returns 0 with the engine state unchanged. -/
theorem getrandbits_negative_returns_zero (e : LcgRandom) (k : Int) (hk : k < 0) :
    LcgRandom.getrandbits e k = (0, e) := by
  unfold LcgRandom.getrandbits
  rw [show k.toNat = 0 by omega]
  rfl

/-- Witness for C3's amended statement, on a validly constructed engine. -/
theorem getrandbits_negative_returns_zero_witness :
    LcgRandom.getrandbits ⟨3, 2, 0, 5, 1⟩ (-1) = (0, ⟨3, 2, 0, 5, 1⟩) :=
  getrandbits_negative_returns_zero ⟨3, 2, 0, 5, 1⟩ (-1) (by decide)

/-- Counterexample to C3 as stated: on the validly constructed engine
`a = 3, b = 0, m = 5, seed = 1`, calling `getrandbits(-1)` silently
returns the value 0 (leaving the state untouched); no
`InvalidParameterError` is raised, since the method contains no check on
`k` and the `range(k)` loop is simply empty. -/
theorem getrandbits_negative_counterexample :
    LcgRandom.init 3 0 5 1 = .ok ⟨3, 2, 0, 5, 1⟩ ∧
    LcgRandom.getrandbits ⟨3, 2, 0, 5, 1⟩ (-1) = (0, ⟨3, 2, 0, 5, 1⟩) := by
  refine ⟨?_, rfl⟩
  simp [LcgRandom.init, reciprocal_mod, recipLoop]
  rfl

/-- Claim C4: the state invariant `0 ≤ x < m` holds after construction, and
(for any engine with positive modulus, which every reachable engine has)
it holds again after `next`, after `previous`, and after any `skip n` that
returns — `previous` normalizes the possibly negative `x - b` into
`[0, m)` because `Int.emod` (Python's floor-style `%`) does. -/
theorem state_invariant_holds :
    (∀ a b m seed e, LcgRandom.init a b m seed = .ok e → 0 ≤ e.x ∧ e.x < e.m) ∧
    (∀ e : LcgRandom, 0 < e.m →
      (0 ≤ (LcgRandom.next e).x ∧ (LcgRandom.next e).x < (LcgRandom.next e).m) ∧
      (0 ≤ (LcgRandom.previous e).x ∧ (LcgRandom.previous e).x < (LcgRandom.previous e).m) ∧
      ∀ n e2, LcgRandom.skip e n = some e2 → 0 ≤ e2.x ∧ e2.x < e2.m) := by
  constructor
  · intro a b m seed e h
    obtain ⟨-, -, -, -, -, -, -, hex, hexm, -⟩ := init_ok_spec a b m seed e h
    exact ⟨hex, hexm⟩
  · intro e hm
    refine ⟨⟨Int.emod_nonneg _ (ne_of_gt hm), Int.emod_lt_of_pos _ hm⟩,
      ⟨Int.emod_nonneg _ (ne_of_gt hm), Int.emod_lt_of_pos _ hm⟩, ?_⟩
    intro n e2 h
    obtain ⟨-, -, -, hm2, w, hxw⟩ := skip_some_spec e n e2 h
    rw [hxw, hm2]
    exact ⟨Int.emod_nonneg _ (ne_of_gt hm), Int.emod_lt_of_pos _ hm⟩

/-- Witness for C4 at a concrete engine with positive modulus. -/
theorem state_invariant_holds_witness :
    (0 ≤ (LcgRandom.next ⟨3, 2, 1, 5, 2⟩).x ∧
      (LcgRandom.next ⟨3, 2, 1, 5, 2⟩).x < (LcgRandom.next ⟨3, 2, 1, 5, 2⟩).m) ∧
    (0 ≤ (LcgRandom.previous ⟨3, 2, 1, 5, 2⟩).x ∧
      (LcgRandom.previous ⟨3, 2, 1, 5, 2⟩).x < (LcgRandom.previous ⟨3, 2, 1, 5, 2⟩).m) ∧
    ∀ n e2, LcgRandom.skip ⟨3, 2, 1, 5, 2⟩ n = some e2 → 0 ≤ e2.x ∧ e2.x < e2.m :=
  state_invariant_holds.2 ⟨3, 2, 1, 5, 2⟩ (by decide)

/-- Claim C5: on every engine whose fields satisfy the construction
invariants (positive modulus, state in `[0, m)`, `ainv` a reciprocal of
`a` — all preserved at every reachable state), `next` followed by
`previous` returns to the original engine, and `previous` followed by
`next` likewise. -/
theorem next_previous_roundtrip (e : LcgRandom) (hm : 0 < e.m) (hx : 0 ≤ e.x)
    (hxm : e.x < e.m) (hinv : e.a * e.ainv ≡ 1 [ZMOD e.m]) :
    LcgRandom.previous (LcgRandom.next e) = e ∧
    LcgRandom.next (LcgRandom.previous e) = e := by
  constructor
  · apply LcgRandom.ext <;> try rfl
    show (((e.x * e.a + e.b).emod e.m - e.b) * e.ainv).emod e.m = e.x
    have h0 : (e.x * e.a + e.b).emod e.m ≡ e.x * e.a + e.b [ZMOD e.m] :=
      Int.emod_emod_of_dvd _ dvd_rfl
    have h1 : ((e.x * e.a + e.b).emod e.m - e.b) * e.ainv
        ≡ e.x * (e.a * e.ainv) [ZMOD e.m] := by
      calc ((e.x * e.a + e.b).emod e.m - e.b) * e.ainv
          ≡ (e.x * e.a + e.b - e.b) * e.ainv [ZMOD e.m] :=
            Int.ModEq.mul_right e.ainv (Int.ModEq.sub_right e.b h0)
        _ = e.x * (e.a * e.ainv) := by ring
    have h2 : e.x * (e.a * e.ainv) ≡ e.x * 1 [ZMOD e.m] := hinv.mul_left e.x
    have h3 : ((e.x * e.a + e.b).emod e.m - e.b) * e.ainv ≡ e.x [ZMOD e.m] := by
      simpa using h1.trans h2
    calc (((e.x * e.a + e.b).emod e.m - e.b) * e.ainv).emod e.m
        = e.x.emod e.m := h3
      _ = e.x := Int.emod_eq_of_lt hx hxm
  · apply LcgRandom.ext <;> try rfl
    show (((e.x - e.b) * e.ainv).emod e.m * e.a + e.b).emod e.m = e.x
    have h0 : ((e.x - e.b) * e.ainv).emod e.m ≡ (e.x - e.b) * e.ainv [ZMOD e.m] :=
      Int.emod_emod_of_dvd _ dvd_rfl
    have h1 : ((e.x - e.b) * e.ainv).emod e.m * e.a + e.b
        ≡ (e.x - e.b) * (e.a * e.ainv) + e.b [ZMOD e.m] := by
      calc ((e.x - e.b) * e.ainv).emod e.m * e.a + e.b
          ≡ (e.x - e.b) * e.ainv * e.a + e.b [ZMOD e.m] :=
            Int.ModEq.add_right e.b (Int.ModEq.mul_right e.a h0)
        _ = (e.x - e.b) * (e.a * e.ainv) + e.b := by ring
    have h2 : (e.x - e.b) * (e.a * e.ainv) + e.b
        ≡ (e.x - e.b) * 1 + e.b [ZMOD e.m] :=
      Int.ModEq.add_right e.b (hinv.mul_left (e.x - e.b))
    have h3 : ((e.x - e.b) * e.ainv).emod e.m * e.a + e.b ≡ e.x [ZMOD e.m] := by
      have h4 := h1.trans h2
      simpa using h4
    calc (((e.x - e.b) * e.ainv).emod e.m * e.a + e.b).emod e.m
        = e.x.emod e.m := h3
      _ = e.x := Int.emod_eq_of_lt hx hxm

/-- Witness for C5 at the concrete valid engine `⟨3, 2, 1, 5, 2⟩`. -/
theorem next_previous_roundtrip_witness :
    LcgRandom.previous (LcgRandom.next ⟨3, 2, 1, 5, 2⟩) = ⟨3, 2, 1, 5, 2⟩ ∧
    LcgRandom.next (LcgRandom.previous ⟨3, 2, 1, 5, 2⟩) = ⟨3, 2, 1, 5, 2⟩ :=
  next_previous_roundtrip ⟨3, 2, 1, 5, 2⟩ (by decide) (by decide) (by decide) (by decide)

/-- Claim C6 (amended: restricted to `a < m`, the precondition asserted
inside `reciprocal_mod`; for `a ≥ m` construction fails with the assertion
error instead, see the counterexample).  Under the documented parameter
constraints plus `a < m`, construction raises `NoInverseError` exactly
when `gcd(a, m) ≠ 1`, and no engine is produced in that case. -/
theorem noInverse_iff_gcd_ne_one (a b m seed : Int) (h1 : 0 < a) (h2 : 0 ≤ b) (h3 : 0 < m)
    (h4 : 0 ≤ seed) (h5 : seed < m) (h6 : a < m) :
    LcgRandom.init a b m seed = .error .noInverse ↔ Int.gcd a m ≠ 1 := by
  have hgg : Int.gcd a m = Nat.gcd a.toNat m.toNat := by
    have ha : a.natAbs = a.toNat := by omega
    have hmm : m.natAbs = m.toNat := by omega
    rw [Int.gcd, ha, hmm]
  unfold LcgRandom.init
  rw [if_pos ⟨h1, h2, h3, h4, h5⟩]
  unfold reciprocal_mod
  rw [if_pos ⟨h3, h1.le, h6⟩, recipLoop_init_fst]
  by_cases hgc : Nat.gcd a.toNat m.toNat = 1
  · rw [if_pos hgc]
    simp [Except.map, hgg, hgc]
  · rw [if_neg hgc]
    simp [Except.map, hgg, hgc]

/-- Witness for C6's amended statement: the spec's concrete scenario
`a = 4, b = 1, m = 8, seed = 0` fails with `NoInverseError`. -/
theorem noInverse_iff_gcd_ne_one_witness :
    LcgRandom.init 4 1 8 0 = .error .noInverse :=
  (noInverse_iff_gcd_ne_one 4 1 8 0 (by decide) (by decide) (by decide) (by decide)
    (by decide) (by decide)).mpr (by decide)

/-- Counterexample to C6 as stated: with `a = 4, b = 0, m = 2, seed = 0`
all documented parameter constraints hold and `gcd(4, 2) = 2 ≠ 1`, yet
construction fails with the `AssertionError` from `reciprocal_mod`'s
precondition (`4 < 2` is false), not with `NoInverseError`. -/
theorem noInverse_counterexample :
    Int.gcd 4 2 ≠ 1 ∧
    LcgRandom.init 4 0 2 0 = .error .reciprocalAssert ∧
    LcgRandom.init 4 0 2 0 ≠ .error .noInverse := by
  have h2 : LcgRandom.init 4 0 2 0 = .error .reciprocalAssert := rfl
  refine ⟨by decide, h2, ?_⟩
  rw [h2]
  intro hcontra
  simp at hcontra

/-- Claim C7: construction raises `InvalidParameterError` (and produces no
engine) whenever `a ≤ 0`, `b < 0`, `m ≤ 0`, or the seed lies outside
`[0, m)`. -/
theorem init_rejects_invalid_parameters (a b m seed : Int)
    (h : a ≤ 0 ∨ b < 0 ∨ m ≤ 0 ∨ seed < 0 ∨ m ≤ seed) :
    LcgRandom.init a b m seed = .error .invalidParameter := by
  unfold LcgRandom.init
  rw [if_neg (by omega)]

/-- Witness for C7: the spec's concrete scenario `seed = m` with otherwise
valid parameters. -/
theorem init_rejects_invalid_parameters_witness :
    LcgRandom.init 5 0 3 3 = .error .invalidParameter :=
  init_rejects_invalid_parameters 5 0 3 3 (by decide)

/-- Claim C8: for `0 ≤ x < mod`, `mod > 0` and `gcd(x, mod) = 1`,
`reciprocal_mod` returns the unique `y` in `[0, mod)` with
`x * y ≡ 1 (mod mod)`. -/
theorem reciprocal_mod_unique_inverse (x mod : Int) (hx : 0 ≤ x) (hxm : x < mod)
    (hm : 0 < mod) (hg : Int.gcd x mod = 1) :
    ∃ y, reciprocal_mod x mod = .ok y ∧ 0 ≤ y ∧ y < mod ∧ x * y ≡ 1 [ZMOD mod] ∧
      ∀ z : Int, 0 ≤ z → z < mod → x * z ≡ 1 [ZMOD mod] → z = y := by
  have hgn : Nat.gcd x.toNat mod.toNat = 1 := by
    have ha : x.natAbs = x.toNat := by omega
    have hb : mod.natAbs = mod.toNat := by omega
    rw [Int.gcd, ha, hb] at hg
    exact hg
  have hok0 : reciprocal_mod x mod = .ok ((recipLoop mod.toNat x.toNat 0 1).2.emod mod) := by
    unfold reciprocal_mod
    rw [if_pos ⟨hm, hx, hxm⟩, recipLoop_init_fst, if_pos hgn]
  obtain ⟨y, hok⟩ : ∃ y, reciprocal_mod x mod = .ok y := ⟨_, hok0⟩
  obtain ⟨-, -, -, hy0, hym, hyinv⟩ := reciprocal_mod_ok_spec x mod y hok
  refine ⟨y, hok, hy0, hym, hyinv, ?_⟩
  intro z hz0 hzm hzinv
  have hchain : z ≡ y [ZMOD mod] := by
    calc z = z * 1 := by ring
      _ ≡ z * (x * y) [ZMOD mod] := hyinv.symm.mul_left z
      _ = (x * z) * y := by ring
      _ ≡ 1 * y [ZMOD mod] := hzinv.mul_right y
      _ = y := by ring
  calc z = z.emod mod := (Int.emod_eq_of_lt hz0 hzm).symm
    _ = y.emod mod := hchain
    _ = y := Int.emod_eq_of_lt hy0 hym

/-- Witness for C8 at `x = 3, mod = 7`. -/
theorem reciprocal_mod_unique_inverse_witness :
    (0 : Int) ≤ 3 ∧ (3 : Int) < 7 ∧ (0 : Int) < 7 ∧ Int.gcd 3 7 = 1 ∧
    ∃ y, reciprocal_mod 3 7 = .ok y ∧ 0 ≤ y ∧ y < 7 ∧ (3 : Int) * y ≡ 1 [ZMOD 7] ∧
      ∀ z : Int, 0 ≤ z → z < 7 → 3 * z ≡ 1 [ZMOD 7] → z = y :=
  ⟨by decide, by decide, by decide, by decide,
    reciprocal_mod_unique_inverse 3 7 (by decide) (by decide) (by decide) (by decide)⟩

/-- Claim C9: `getrandbits(0)` returns 0 and leaves the state returned by
`get_state` unchanged — the `range(0)` loop performs zero `randbit`
(hence zero `next`) calls. -/
theorem getrandbits_zero_is_noop (e : LcgRandom) :
    LcgRandom.getrandbits e 0 = (0, e) ∧
    LcgRandom.get_state (LcgRandom.getrandbits e 0).2 = LcgRandom.get_state e :=
  ⟨rfl, rfl⟩

/-- Claim C10: for every `a ≥ m` with `b ≥ 0`, `m > 0`, `0 ≤ seed < m` and
`gcd(a, m) = 1` — all the spec-stated parameter conditions — construction
fails via the assertion `0 <= x < mod` inside `reciprocal_mod`: the code
implicitly requires `a < m` beyond the documented constraints. -/
theorem init_asserts_when_a_ge_m (a b m seed : Int) (h1 : m ≤ a) (h2 : 0 ≤ b) (h3 : 0 < m)
    (h4 : 0 ≤ seed) (h5 : seed < m) (h6 : Int.gcd a m = 1) :
    LcgRandom.init a b m seed = .error .reciprocalAssert := by
  have hrec : reciprocal_mod a m = .error .reciprocalAssert := by
    unfold reciprocal_mod
    rw [if_neg (by omega)]
  unfold LcgRandom.init
  rw [if_pos ⟨by omega, h2, h3, h4, h5⟩, hrec]
  rfl

/-- Witness for C10: `a = 5, b = 0, m = 3, seed = 0` (with `gcd(5, 3) = 1`)
hits the assertion inside the modular-inverse routine. -/
theorem init_asserts_when_a_ge_m_witness :
    LcgRandom.init 5 0 3 0 = .error .reciprocalAssert :=
  init_asserts_when_a_ge_m 5 0 3 0 (by decide) (by decide) (by decide) (by decide)
    (by decide) (by decide)
